import Mathlib

/-!
Shallow embedding of `bundle.py` (a Markdown source-code bundler) and proofs
about its two core engines: the pattern-based path selector
(`match_pattern`, `apply_patterns_to_set`, the `main` selection fold) and the
content codec (`is_binary_file`, `read_file_with_encoding`,
`normalize_encoding_name`, the per-file rendering logic of `main`).

Python strings are modelled as Lean `String` and manipulated through their
underlying `List Char` (field `String.data`); byte strings as `List Nat`;
`pathlib.Path` relative paths as lists of path segments (`RelPath`);
Python `set` as a duplicate-free `List` whose set-level content is what the
theorems speak about (membership); fallible I/O as `Option` / `Except`.
All definitions are executable and kernel-evaluable (structural or
fuel-bounded recursion only), so concrete runs can be checked with `decide`.
-/

namespace Bundle

/-- A repository-relative path, as its list of path segments
(the model of `pathlib.Path` values such as `Path("tools/sub")`). -/
abbrev RelPath := List String

/-- Joined segment characters: `joinSegs ["a","b"] = "a/b".data`. -/
def joinSegs : List String → List Char
  | [] => []
  | [s] => s.data
  | s :: rest => s.data ++ '/' :: joinSegs rest

/-- Model of Python `str(path)`: the segments joined with `/`. -/
def pathStr (p : RelPath) : String :=
  String.mk (joinSegs p)

/-- Model of Python `path.name`: the last segment (`""` for an empty path). -/
def pathName (p : RelPath) : String :=
  (p.getLast?).getD ""

/-- Whether string `s` starts with string `p` (Python `str.startswith`). -/
def strStartsWith (s p : String) : Bool :=
  p.data.isPrefixOf s.data

/-- Python `str.rstrip('/')`: drop every trailing `/`. -/
def rstripSlash (s : String) : String :=
  String.mk ((s.data.reverse.dropWhile (fun c => c = '/')).reverse)

/-- Whether the last character of `s` is `c` (Python `str.endswith` for a
one-character suffix). -/
def strEndsWithChar (s : String) (c : Char) : Bool :=
  s.data.getLast? = some c

/-- Membership test of a character in an `fnmatch` bracket expression:
either a literal member or inside a range `a-b`. -/
def classMatch : List Char → Char → Bool
  | a :: '-' :: b :: rest, c =>
    (decide (a.val ≤ c.val) && decide (c.val ≤ b.val)) || classMatch rest c
  | a :: rest, c => (c = a) || classMatch rest c
  | [], _ => false

/-- Scan an `fnmatch` bracket expression for its closing `]`, returning the
content before it and the remaining pattern; `none` when `]` is missing. -/
def untilRBracket : List Char → Option (List Char × List Char)
  | [] => none
  | ']' :: rest => some ([], rest)
  | c :: rest => (untilRBracket rest).map (fun pr => (c :: pr.1, pr.2))

/-- Fuel-bounded core of the `fnmatch.fnmatch` glob matcher: `*` matches any
sequence, `?` any single character, `[...]`/`[!...]` a bracket expression
(with a leading `]` taken literally, and an unmatched `[` taken as a literal
character). Each recursive call shrinks the pattern or the candidate, so
`pat.length + s.length + 1` fuel always suffices. -/
def globMatchAux : Nat → List Char → List Char → Bool
  | 0, _, _ => false
  | _ + 1, [], s => s.isEmpty
  | fuel + 1, '*' :: ps, s =>
    globMatchAux fuel ps s ||
      (match s with
       | [] => false
       | _ :: s2 => globMatchAux fuel ('*' :: ps) s2)
  | fuel + 1, '?' :: ps, s =>
    match s with
    | [] => false
    | _ :: s2 => globMatchAux fuel ps s2
  | fuel + 1, '[' :: ps, s =>
    let neg : Bool := match ps with | '!' :: _ => true | _ => false
    let ps1 : List Char := match ps with | '!' :: t => t | _ => ps
    let scan : Option (List Char × List Char) :=
      match ps1 with
      | ']' :: t => (untilRBracket t).map (fun pr => (']' :: pr.1, pr.2))
      | _ => untilRBracket ps1
    match scan with
    | none =>
      -- unmatched `[`: treated by `fnmatch.translate` as a literal character
      (match s with
       | [] => false
       | c :: s2 => (c = '[') && globMatchAux fuel ps s2)
    | some pr =>
      (match s with
       | [] => false
       | c :: s2 => (classMatch pr.1 c != neg) && globMatchAux fuel pr.2 s2)
  | fuel + 1, p :: ps, s =>
    match s with
    | [] => false
    | c :: s2 => (c = p) && globMatchAux fuel ps s2

/-- Model of `fnmatch.fnmatch(name, pattern)` (POSIX case-sensitive form). -/
def fnmatchB (name pattern : String) : Bool :=
  globMatchAux (pattern.data.length + name.data.length + 1) pattern.data name.data

/-- Embeds `match_pattern(path, pattern, is_dir)` of `bundle.py`: a pattern
with a trailing `/` is a directory rule (prefix comparison on the joined
path, with the bare pattern `/` matching every directory), any other pattern
is a file rule (glob on the base name only). -/
def match_pattern (path : RelPath) (pattern : String) (is_dir : Bool) : Bool :=
  if strEndsWithChar pattern '/' then
    if !is_dir then false
    else
      let dir_pattern := rstripSlash pattern
      if dir_pattern = "" then true
      else
        (pathStr path = dir_pattern) ||
          strStartsWith (pathStr path) (dir_pattern ++ "/")
  else
    if is_dir then false
    else fnmatchB (pathName path) pattern

/-- Python whitespace stripped by `str.strip()` (ASCII subset). -/
def pyIsSpace (c : Char) : Bool :=
  c = ' ' || c = '\t' || c = '\n' || c = '\r' || c = '\x0b' || c = '\x0c'

/-- Model of Python `str.strip()`. -/
def pyStrip (s : List Char) : List Char :=
  ((s.dropWhile pyIsSpace).reverse.dropWhile pyIsSpace).reverse

/-- Model of Python `str.split(",")` (always at least one piece). -/
def splitOnComma : List Char → List (List Char)
  | [] => [[]]
  | ',' :: rest => [] :: splitOnComma rest
  | c :: rest =>
    match splitOnComma rest with
    | head :: tail => (c :: head) :: tail
    | [] => [[c]]

/-- Embeds the pattern-list parsing of `apply_patterns_to_set`:
`[p.strip() for p in patterns_str.split(",") if p.strip()]`. -/
def parsePatterns (s : String) : List String :=
  ((splitOnComma s.data).map (fun p => String.mk (pyStrip p))).filter
    (fun p => p != "")

/-- The filesystem as the selector sees it: the full recursive enumeration of
paths under the root (`os.walk`: every file and every non-root directory,
duplicate-free) plus the directory predicate `Path.is_dir`. -/
structure FS where
  univ : List RelPath
  isDir : RelPath → Bool

/-- Embeds `collect_all_paths(root)`: the full enumeration, whose `os.walk`
traversal is abstracted as the `FS.univ` field of the filesystem model. -/
def collect_all_paths (fs : FS) : List RelPath :=
  fs.univ

/-- Set union on duplicate-free lists (model of Python `set | set`). -/
def listUnion (a b : List RelPath) : List RelPath :=
  a ++ b.filter (fun x => !(a.contains x))

/-- Embeds `apply_patterns_to_set(current_set, root, patterns_str, action)`:
an empty option string is a no-op; `include` filters the whole universe
through the patterns and unions the matches in; `exclude` keeps exactly the
current paths matched by no pattern. -/
def apply_patterns_to_set (current_set : List RelPath) (fs : FS)
    (patterns_str : String) (action : String) : List RelPath :=
  if patterns_str = "" then current_set
  else
    let patterns := parsePatterns patterns_str
    let all_paths : List RelPath :=
      if action = "include" then collect_all_paths fs else []
    let iter : List RelPath := if action = "exclude" then current_set else all_paths
    let new_set : List RelPath :=
      iter.filter (fun rel_path =>
        let is_dir := fs.isDir rel_path
        let matched := patterns.any (fun pat => match_pattern rel_path pat is_dir)
        if action = "include" then matched else !matched)
    if action = "exclude" then new_set else listUnion current_set new_set

/-- Embeds the selection phase of `main` (lines 241–249): all `-p` options are
mapped to `include` operations first, then all `--ignore` options to
`exclude` operations, and the resulting list is folded over the empty set. -/
def mainSelect (fs : FS) (patterns ignore : List String) : List RelPath :=
  let all_args :=
    patterns.map (fun p => ("include", p)) ++ ignore.map (fun i => ("exclude", i))
  all_args.foldl (fun cur ai => apply_patterns_to_set cur fs ai.2 ai.1) []

/-- Modelled from the spec: the selection fold in the exact left-to-right
order the caller supplied the operations (the order the spec and the module
docstring promise), for comparison with `mainSelect`. -/
def specCallerFold (fs : FS) (ops : List (String × String)) : List RelPath :=
  ops.foldl (fun cur ai => apply_patterns_to_set cur fs ai.2 ai.1) []

/-- One file on disk, as the codec sees it through its two `open` calls:
`sampleRead` is the byte stream visible to the sampling open inside
`is_binary_file` (`none` when that open or read raises), `fullRead` the byte
stream visible to the full-content reads (`none` when they raise). -/
structure PFile where
  sampleRead : Option (List Nat)
  fullRead : Option (List Nat)

/-- Embeds `is_binary_file(path, sample_size)`: read up to `sample_size`
bytes; a zero byte means binary; any read failure also means binary. -/
def is_binary_file (f : PFile) (sample_size : Nat) : Bool :=
  match f.sampleRead with
  | none => true
  | some sample => decide ((0 : Nat) ∈ sample.take sample_size)

/-- Embeds `is_binary_ofile(path)`, the alias used by the main logic. -/
def is_binary_ofile (f : PFile) : Bool :=
  is_binary_file f 1024

/-- Fuel-bounded replacement of every non-overlapping occurrence of `pat`
(scanning left to right), the model of Python `str.replace`; `s.length` fuel
suffices since every step consumes at least one character. -/
def replaceLAux (pat repl : List Char) : Nat → List Char → List Char
  | 0, s => s
  | _ + 1, [] => []
  | fuel + 1, c :: rest =>
    if pat ≠ [] ∧ pat.isPrefixOf (c :: rest) then
      repl ++ replaceLAux pat repl fuel ((c :: rest).drop pat.length)
    else c :: replaceLAux pat repl fuel rest

/-- Model of Python `s.replace(pat, repl)` for non-empty `pat`. -/
def replaceL (pat repl s : List Char) : List Char :=
  replaceLAux pat repl s.length s

/-- Embeds `normalize_encoding_name(enc)`: `None` or empty gives
`"unknown"`, otherwise lower-case, `_` to `-`, `utf8` to `utf-8`. -/
def normalize_encoding_name (enc : Option String) : String :=
  match enc with
  | none => "unknown"
  | some e =>
    if e = "" then "unknown"
    else
      String.mk
        (replaceL "utf8".data "utf-8".data
          (replaceL "_".data "-".data (e.data.map Char.toLower)))

/-- The UTF-8 family list checked by `read_file_with_encoding`. -/
def utf8Family : List String :=
  ["utf-8", "utf-8-sig", "utf-8-bom", "utf8", "utf8-sig"]

/-- The injected decoding capability: `detect` models
`charset_normalizer.from_path(path).best()` applied to the file bytes
(`none` when no best match exists), `decode` models `bytes.decode(encoding)`
(`none` when it raises `UnicodeDecodeError` or `LookupError`). -/
structure Codec where
  detect : List Nat → Option String
  decode : String → List Nat → Option (List Char)

/-- Embeds the encoding-resolution steps of `read_file_with_encoding`
(lines 82–89): take the explicit encoding when Python-truthy, else the
detector's best guess, and fall back to `"utf-8"` when still falsy. -/
def resolve_encoding (codec : Codec) (raw_bytes : List Nat)
    (explicit_encoding : Option String) : String :=
  let encoding : Option String :=
    match explicit_encoding with
    | some e => if e = "" then codec.detect raw_bytes else some e
    | none => codec.detect raw_bytes
  match encoding with
  | some e => if e = "" then "utf-8" else e
  | none => "utf-8"

/-- First normalization pass: every `\r\n` pair becomes `\n`
(Python `text.replace('\r\n', '\n')`, left-to-right, non-overlapping). -/
def replaceCRLF : List Char → List Char
  | '\r' :: '\n' :: rest => '\n' :: replaceCRLF rest
  | c :: rest => c :: replaceCRLF rest
  | [] => []

/-- Embeds the line-terminator normalization of `read_file_with_encoding`:
`\r\n` to `\n`, then every remaining `\r` to `\n`. -/
def normalizeNewlines (t : List Char) : List Char :=
  (replaceCRLF t).map (fun c => if c = '\r' then '\n' else c)

/-- The tuple returned by `read_file_with_encoding`:
`(text, encoding, needs_base64, is_binary, error)`. -/
structure ReadResult where
  text : Option (List Char)
  encoding : Option String
  needs_base64 : Bool
  is_binary : Bool
  error : Option String
deriving DecidableEq

/-- Embeds `read_file_with_encoding(path, explicit_encoding)`: binary files
short-circuit; a failed full read is a per-file error; otherwise the resolved
encoding decodes the bytes in strict mode, successful text is normalized and
flagged `needs_base64` exactly when the canonical encoding name is outside
the UTF-8 family, and a decode failure is reported as binary-with-error. -/
def read_file_with_encoding (codec : Codec) (f : PFile)
    (explicit_encoding : Option String) : ReadResult :=
  if is_binary_ofile f then ⟨none, some "binary", true, true, none⟩
  else
    match f.fullRead with
    | none => ⟨none, none, false, false, some "Ошибка чтения"⟩
    | some raw_bytes =>
      let encoding := resolve_encoding codec raw_bytes explicit_encoding
      match codec.decode encoding raw_bytes with
      | some text_with_original_line_endings =>
        let normalized_text := normalizeNewlines text_with_original_line_endings
        let normalized_enc := normalize_encoding_name (some encoding)
        let is_utf8_family := decide (normalized_enc ∈ utf8Family)
        ⟨some normalized_text, some encoding, !is_utf8_family, false, none⟩
      | none =>
        ⟨none, some encoding, true, true,
          some ("Декодирование " ++ encoding ++ " не удалось")⟩

/-- The base64 alphabet used by `base64.b64encode`. -/
def b64alphabet : List Char :=
  "ABCDEFGHIJKLMNOPQRSTUVWXYZabcdefghijklmnopqrstuvwxyz0123456789+/".data

/-- The base64 digit for a 6-bit value. -/
def b64chr (n : Nat) : Char :=
  b64alphabet.getD n 'A'

/-- The 6-bit value of a base64 digit (inverse of `b64chr` on `[0, 64)`). -/
def b64val (c : Char) : Nat :=
  if 'A' ≤ c ∧ c ≤ 'Z' then c.toNat - 'A'.toNat
  else if 'a' ≤ c ∧ c ≤ 'z' then c.toNat - 'a'.toNat + 26
  else if '0' ≤ c ∧ c ≤ '9' then c.toNat - '0'.toNat + 52
  else if c = '+' then 62
  else 63

/-- Model of `base64.b64encode` on a byte list: 3-byte groups become four
base64 digits, with `=` padding for a 1- or 2-byte tail. -/
def b64encode : List Nat → List Char
  | [] => []
  | [a] => [b64chr (a / 4), b64chr (a % 4 * 16), '=', '=']
  | [a, b] => [b64chr (a / 4), b64chr (a % 4 * 16 + b / 16), b64chr (b % 16 * 4), '=']
  | a :: b :: c :: rest =>
    b64chr (a / 4) :: b64chr (a % 4 * 16 + b / 16) ::
      b64chr (b % 16 * 4 + c / 64) :: b64chr (c % 64) :: b64encode rest

/-- Base64 decoding of 4-digit groups with `=` padding, the inverse used to
state the round-trip property of the emitted backup blocks. -/
def b64decode : List Char → List Nat
  | c1 :: c2 :: c3 :: c4 :: rest =>
    if c4 = '=' then
      if c3 = '=' then [b64val c1 * 4 + b64val c2 / 16]
      else [b64val c1 * 4 + b64val c2 / 16, b64val c2 % 16 * 16 + b64val c3 / 4]
    else
      (b64val c1 * 4 + b64val c2 / 16) ::
        (b64val c2 % 16 * 16 + b64val c3 / 4) ::
        (b64val c3 % 4 * 64 + b64val c4) :: b64decode rest
  | _ => []

/-- Embeds the trailing-newline adjustment of `main` (lines 383–384):
append one `\n` only when the text is non-empty and does not end in `\n`. -/
def emitBody (text : List Char) : List Char :=
  if text ≠ [] ∧ text.getLast? ≠ some '\n' then text ++ ['\n'] else text

/-- Whether a character list ends in exactly one `\n` (the property the spec
asserts of every emitted text body). -/
def endsInOneNL (l : List Char) : Bool :=
  decide (l.getLast? = some '\n') && !(decide (l.dropLast.getLast? = some '\n'))

/-- One emitted record of the output document, keeping exactly the data the
corresponding branch of `main` writes: directory and paths-only placeholders,
error notes, binary records (base64 payload), and text records (body plus
optional base64 backup). -/
inductive Block where
  | dirBlock (rel : RelPath)
  | pathsOnlyBlock (rel : RelPath)
  | errorBlock (rel : RelPath) (msg : String)
  | binaryBlock (rel : RelPath) (encName : String) (payload : List Char)
  | textBlock (rel : RelPath) (encName : String) (body : List Char)
      (backup : Option (List Char))
deriving DecidableEq

instance {ε α : Type} [DecidableEq ε] [DecidableEq α] : DecidableEq (Except ε α) :=
  fun x y =>
    match x, y with
    | .ok a, .ok b =>
      if h : a = b then .isTrue (by rw [h]) else .isFalse (by simp [h])
    | .ok _, .error _ => .isFalse (by simp)
    | .error _, .ok _ => .isFalse (by simp)
    | .error e, .error e2 =>
      if h : e = e2 then .isTrue (by rw [h]) else .isFalse (by simp [h])

/-- The base64 payload carried by a block, if any. -/
def blockPayload : Block → Option (List Char)
  | .binaryBlock _ _ p => some p
  | .textBlock _ _ _ b => b
  | _ => none

/-- Embeds the per-file rendering of `main` (lines 348–407): the error branch
wins and emits only the error note; binary files re-read and emit their bytes
as base64; text files emit the adjusted body and, when `needs_base64` holds
and is not disabled, a base64 backup of the re-read original bytes.
`Except.error` models an uncaught exception from the re-opening `open`. -/
def renderFile (codec : Codec) (f : PFile) (rel : RelPath)
    (explicit_encoding : Option String) (disable_base64 : Bool) :
    Except Unit Block :=
  let r := read_file_with_encoding codec f explicit_encoding
  match r.error with
  | some e => .ok (.errorBlock rel e)
  | none =>
    if r.is_binary then
      match f.fullRead with
      | some bs => .ok (.binaryBlock rel (normalize_encoding_name r.encoding) (b64encode bs))
      | none => .error ()
    else
      let norm_enc := normalize_encoding_name r.encoding
      let body := emitBody (r.text.getD [])
      if r.needs_base64 ∧ ¬disable_base64 then
        match f.fullRead with
        | some bs => .ok (.textBlock rel norm_enc body (some (b64encode bs)))
        | none => .error ()
      else .ok (.textBlock rel norm_enc body none)

/-- Embeds the explicit-encoding lookup of `main` (lines 325–329): the first
rule whose pattern matches the path, always tested with `is_dir = False`. -/
def encodingFor (rules : List (String × String)) (rel : RelPath) : Option String :=
  (rules.find? (fun r => match_pattern rel r.1 false)).map (fun r => r.2)

/-- Embeds the no-backup lookup of `main` (lines 332–336): `base64` output is
disabled when any rule pattern matches, always with `is_dir = False`. -/
def noBackupFor (rules : List String) (rel : RelPath) : Bool :=
  rules.any (fun pat => match_pattern rel pat false)

/-- The parsed configuration `main` receives from `argparse`. -/
structure Config where
  patterns : List String
  ignore : List String
  encoding_rules : List (String × String)
  no_backup_rules : List String
  paths_only_rules : List String

/-- Embeds the per-path dispatch of `main` (lines 303–346): directories give
a placeholder, then encoding and no-backup rules are resolved, paths-only
files give a placeholder, and remaining files go through `renderFile`. -/
def renderPath (fs : FS) (codec : Codec) (files : RelPath → PFile)
    (cfg : Config) (rel : RelPath) : Except Unit Block :=
  let is_dir := fs.isDir rel
  let is_paths_only := cfg.paths_only_rules.any (fun pat => match_pattern rel pat is_dir)
  if is_dir then .ok (.dirBlock rel)
  else
    let explicit_encoding := encodingFor cfg.encoding_rules rel
    let disable_base64 := noBackupFor cfg.no_backup_rules rel
    if is_paths_only then .ok (.pathsOnlyBlock rel)
    else renderFile codec (files rel) rel explicit_encoding disable_base64

/-- Character order by code point (the order Python string comparison uses). -/
def lexLeChars : List Char → List Char → Bool
  | [], _ => true
  | _ :: _, [] => false
  | a :: as, b :: bs => if a = b then lexLeChars as bs else decide (a.val < b.val)

/-- Path order by segment tuples, the `pathlib` comparison `sorted` uses. -/
def pathLe : RelPath → RelPath → Bool
  | [], _ => true
  | _ :: _, [] => false
  | a :: as, b :: bs => if a = b then pathLe as bs else lexLeChars a.data b.data

/-- Stable insertion into a sorted list. -/
def insertSorted (x : RelPath) : List RelPath → List RelPath
  | [] => [x]
  | y :: ys => if pathLe x y then x :: y :: ys else y :: insertSorted x ys

/-- Model of `sorted(current_set)` in `main`. -/
def sortPaths (l : List RelPath) : List RelPath :=
  l.foldr insertSorted []

/-- The fatal outcomes of a run of `main`. -/
inductive RunError where
  | noMatch
  | uncaught
deriving DecidableEq

/-- Embeds the whole document-producing run of `main` after the root check:
fold the selection operations, fail with `noMatch` (exit status 1, no output
stream ever opened) when the final set is empty, otherwise render every
selected path in sorted order. -/
def bundleRun (fs : FS) (codec : Codec) (files : RelPath → PFile)
    (cfg : Config) : Except RunError (List Block) :=
  let current_set := mainSelect fs cfg.patterns cfg.ignore
  if current_set = [] then .error .noMatch
  else
    match (sortPaths current_set).mapM (renderPath fs codec files cfg) with
    | .ok blocks => .ok blocks
    | .error _ => .error .uncaught

/-- A directory rule (trailing separator) can never match a candidate taken
as a non-directory: the role check precedes every name comparison. -/
theorem match_pattern_dirpat_file (p : RelPath) (pat : String)
    (h : strEndsWithChar pat '/' = true) : match_pattern p pat false = false := by
  simp [match_pattern, h]

/-- A file rule (no trailing separator) can never match a candidate taken as
a directory. -/
theorem match_pattern_filepat_dir (p : RelPath) (pat : String)
    (h : strEndsWithChar pat '/' = false) : match_pattern p pat true = false := by
  simp [match_pattern, h]

/-- C3: for every candidate path and every pattern, a pattern ending in a
path separator (directory rule) never matches a candidate that is a file,
and a pattern with no trailing separator (file rule) never matches a
candidate that is a directory, regardless of the names involved. -/
theorem C3_role_separation (p : RelPath) (pat : String) :
    (strEndsWithChar pat '/' = true → match_pattern p pat false = false) ∧
    (strEndsWithChar pat '/' = false → match_pattern p pat true = false) :=
  ⟨match_pattern_dirpat_file p pat, match_pattern_filepat_dir p pat⟩

/-- Witness for C3 at the spec's own examples: directory rule `sub/` against
a file named `sub`, file rule `*.md` against a directory named `x.md`. -/
theorem C3_role_separation_witness :
    match_pattern ["sub"] "sub/" false = false ∧
    match_pattern ["x.md"] "*.md" true = false :=
  ⟨(C3_role_separation ["sub"] "sub/").1 (by decide),
   (C3_role_separation ["x.md"] "*.md").2 (by decide)⟩

/-- C10: an encoding rule or a no-backup rule whose pattern ends with a path
separator never applies to any emitted file: both lookups always test the
candidate with `is_dir = False`, so deleting every directory-pattern rule
changes neither lookup result. -/
theorem C10_dir_rules_inert (rel : RelPath) (encRules : List (String × String))
    (nbRules : List String) :
    encodingFor encRules rel =
      encodingFor (encRules.filter (fun r => !(strEndsWithChar r.1 '/'))) rel ∧
    noBackupFor nbRules rel =
      noBackupFor (nbRules.filter (fun p => !(strEndsWithChar p '/'))) rel := by
  constructor
  · induction encRules with
    | nil => rfl
    | cons r rs ih =>
      by_cases h : strEndsWithChar r.1 '/' = true
      · have hm := match_pattern_dirpat_file rel r.1 h
        simpa [encodingFor, List.filter_cons, h, List.find?_cons, hm] using ih
      · have h2 : strEndsWithChar r.1 '/' = false := by
          revert h; cases strEndsWithChar r.1 '/' <;> simp
        by_cases hm : match_pattern rel r.1 false = true
        · simp [encodingFor, List.filter_cons, h2, List.find?_cons, hm]
        · have hm2 : match_pattern rel r.1 false = false := by
            revert hm; cases match_pattern rel r.1 false <;> simp
          simpa [encodingFor, List.filter_cons, h2, List.find?_cons, hm2] using ih
  · induction nbRules with
    | nil => rfl
    | cons r rs ih =>
      by_cases h : strEndsWithChar r '/' = true
      · have hm := match_pattern_dirpat_file rel r h
        simpa [noBackupFor, List.filter_cons, h, List.any_cons, hm] using ih
      · have h2 : strEndsWithChar r '/' = false := by
          revert h; cases strEndsWithChar r '/' <;> simp
        simp only [noBackupFor, List.filter_cons, h2, List.any_cons] at *
        simp [ih]

/-- The concrete filesystem for the C1 divergence: a root holding one
directory `b` that contains one file `b/x`. -/
def fsB : FS :=
  ⟨[["b"], ["b", "x"]], fun p => p == [("b" : String)]⟩

/-- C1: the code does not fold the operations in the caller's left-to-right
order. `main` appends all `-p` includes before all `--ignore` excludes, so
for the caller order `--ignore "b/" -p "b/"` the code removes `b` again and
ends empty, while the caller-order fold promised by the claim (and by the
module docstring) excludes on the empty set first and ends with `b`
selected. The same instance shows include-then-exclude differs from
exclude-then-include. -/
theorem C1_order_divergence :
    mainSelect fsB ["b/"] ["b/"] = [] ∧
    specCallerFold fsB [("exclude", "b/"), ("include", "b/")] = [["b"]] ∧
    mainSelect fsB ["b/"] ["b/"] ≠
      specCallerFold fsB [("exclude", "b/"), ("include", "b/")] := by
  decide

/-- C7: whenever the selection fold has produced an empty final path set, the
run fails with the no-match condition: exit status 1, and the rendering
stage (the only producer of document blocks, behind the output-stream open)
is never reached. -/
theorem C7_empty_selection_no_output (fs : FS) (codec : Codec)
    (files : RelPath → PFile) (cfg : Config)
    (h : mainSelect fs cfg.patterns cfg.ignore = []) :
    bundleRun fs codec files cfg = .error .noMatch := by
  simp [bundleRun, h]

/-- Witness for C7: a universe holding only `a.txt`, selected with the
pattern `*.zzz` that matches nothing. -/
theorem C7_empty_selection_no_output_witness :
    bundleRun ⟨[["a.txt"]], fun _ => false⟩ ⟨fun _ => none, fun _ _ => none⟩
      (fun _ => ⟨none, none⟩) ⟨["*.zzz"], [], [], [], []⟩ = .error .noMatch :=
  C7_empty_selection_no_output _ _ _ _ (by decide)

/-- Membership in the list model of Python set union. -/
theorem mem_listUnion (a b : List RelPath) (p : RelPath) :
    p ∈ listUnion a b ↔ p ∈ a ∨ p ∈ b := by
  by_cases hpa : p ∈ a <;>
    simp [listUnion, List.mem_filter, List.contains, List.elem_iff, hpa]

/-- The concrete filesystem for the C2 witness: one file `a` and one file
`b.cpp` at the root. -/
def fsC2 : FS :=
  ⟨[["a"], ["b.cpp"]], fun _ => false⟩

/-- C2: one selection operation behaves as the spec states. An `include`
yields the union of the working set with every universe path matching some
parsed pattern (pre-existing members untouched); an `exclude` keeps exactly
the working-set paths matching no pattern, and its result does not depend on
the universe at all. -/
theorem C2_single_operation (W : List RelPath) (fs : FS) (s : String)
    (hP : parsePatterns s ≠ []) :
    (∀ p, p ∈ apply_patterns_to_set W fs s "include" ↔
      p ∈ W ∨ (p ∈ fs.univ ∧ ∃ pat ∈ parsePatterns s,
        match_pattern p pat (fs.isDir p) = true)) ∧
    (∀ p, p ∈ apply_patterns_to_set W fs s "exclude" ↔
      p ∈ W ∧ ∀ pat ∈ parsePatterns s, match_pattern p pat (fs.isDir p) = false) ∧
    (∀ univ2, apply_patterns_to_set W ⟨univ2, fs.isDir⟩ s "exclude" =
      apply_patterns_to_set W fs s "exclude") := by
  have hs : ¬(s = "") := by
    intro hs0
    apply hP
    rw [hs0]
    rfl
  refine ⟨?_, ?_, ?_⟩
  · intro p
    rw [apply_patterns_to_set, if_neg hs]
    simp only [if_pos rfl, if_neg (by decide : ¬("include" : String) = "exclude")]
    rw [mem_listUnion]
    simp [collect_all_paths, List.mem_filter, List.any_eq_true]
  · intro p
    rw [apply_patterns_to_set, if_neg hs]
    simp only [if_pos rfl, if_neg (by decide : ¬("exclude" : String) = "include")]
    simp [List.mem_filter, List.any_eq_false]
  · intro univ2
    rw [apply_patterns_to_set, apply_patterns_to_set]
    simp [if_neg (by decide : ¬("exclude" : String) = "include")]

/-- Witness for C2: including `*.cpp` over `fsC2` starting from the working
set holding only `a`, and excluding `*.cpp` from that working set. -/
theorem C2_single_operation_witness :
    (∀ p, p ∈ apply_patterns_to_set [["a"]] fsC2 "*.cpp" "include" ↔
      p ∈ [["a"]] ∨ (p ∈ fsC2.univ ∧ ∃ pat ∈ parsePatterns "*.cpp",
        match_pattern p pat (fsC2.isDir p) = true)) ∧
    (∀ p, p ∈ apply_patterns_to_set [["a"]] fsC2 "*.cpp" "exclude" ↔
      p ∈ [["a"]] ∧ ∀ pat ∈ parsePatterns "*.cpp",
        match_pattern p pat (fsC2.isDir p) = false) ∧
    (∀ univ2, apply_patterns_to_set [["a"]] ⟨univ2, fsC2.isDir⟩ "*.cpp" "exclude" =
      apply_patterns_to_set [["a"]] fsC2 "*.cpp" "exclude") :=
  C2_single_operation [["a"]] fsC2 "*.cpp" (by decide)

/-- The trivial codec whose detector finds nothing and whose decoder always
fails, used by several concrete witnesses. -/
def cdecNone : Codec :=
  ⟨fun _ => none, fun _ _ => none⟩

/-- C4: a file whose sampled first 1024 bytes contain a zero byte is
classified binary, and any failure of the sample read is classified binary;
in both cases the declared encoding is never consulted (the whole result is
independent of it). -/
theorem C4_zero_byte_binary (codec : Codec) (f : PFile) (e : Option String)
    (h : f.sampleRead = none ∨
      ∃ s, f.sampleRead = some s ∧ (0 : Nat) ∈ s.take 1024) :
    (read_file_with_encoding codec f e).is_binary = true ∧
    ∀ e2, read_file_with_encoding codec f e2 = read_file_with_encoding codec f e := by
  have hb : is_binary_ofile f = true := by
    unfold is_binary_ofile is_binary_file
    rcases h with h | ⟨s, hs, hz⟩
    · rw [h]
    · rw [hs]
      simpa using hz
  exact ⟨by simp [read_file_with_encoding, hb],
    fun e2 => by simp [read_file_with_encoding, hb]⟩

/-- Witness for C4: a one-byte file holding a zero byte. -/
theorem C4_zero_byte_binary_witness :
    (read_file_with_encoding cdecNone ⟨some [0], some [0]⟩ (some "utf-8")).is_binary
      = true ∧
    ∀ e2, read_file_with_encoding cdecNone ⟨some [0], some [0]⟩ e2 =
      read_file_with_encoding cdecNone ⟨some [0], some [0]⟩ (some "utf-8") :=
  C4_zero_byte_binary cdecNone ⟨some [0], some [0]⟩ (some "utf-8")
    (Or.inr ⟨[0], rfl, by decide⟩)

/-- Counterexample for C5 as stated: a non-binary one-byte file `[200]`
whose declared encoding fails to decode. The emitted record is only the
error block, which carries no base64 payload, although the raw byte 200 was
readable — the original bytes are not captured in the document. -/
theorem C5_counterexample :
    renderFile cdecNone ⟨some [200], some [200]⟩ ["f.txt"] (some "ascii") false =
      .ok (.errorBlock ["f.txt"] "Декодирование ascii не удалось") ∧
    blockPayload (.errorBlock ["f.txt"] "Декодирование ascii не удалось") = none ∧
    (⟨some [200], some [200]⟩ : PFile).fullRead = some [200] := by
  decide

/-- C5 (amended): on decode failure the file is demoted to a
binary-with-note result (`needs_base64` and `is_binary` are set), the error
note is attached and the run continues, but the emitted record is only the
error block: the renderer's error branch wins and the original raw bytes are
not captured in the document. -/
theorem C5_decode_failure_demotion (codec : Codec) (f : PFile) (rel : RelPath)
    (e : Option String) (disable : Bool) (msg : String)
    (herr : (read_file_with_encoding codec f e).error = some msg)
    (hbin : (read_file_with_encoding codec f e).is_binary = true) :
    (read_file_with_encoding codec f e).needs_base64 = true ∧
    renderFile codec f rel e disable = .ok (.errorBlock rel msg) ∧
    blockPayload (.errorBlock rel msg) = none := by
  by_cases hb : is_binary_ofile f = true
  · simp [read_file_with_encoding, hb] at herr
  · have hb2 : is_binary_ofile f = false := by
      revert hb; cases is_binary_ofile f <;> simp
    cases hf : f.fullRead with
    | none => simp [read_file_with_encoding, hb2, hf] at hbin
    | some bs =>
      cases hd : codec.decode (resolve_encoding codec bs e) bs with
      | some text => simp [read_file_with_encoding, hb2, hf, hd] at herr
      | none =>
        refine ⟨?_, ?_, rfl⟩
        · simp [read_file_with_encoding, hb2, hf, hd]
        · simp [renderFile, herr]

/-- Witness for C5: a concrete decode failure under the always-failing
codec, with the no-backup flag raised to show the error branch still wins. -/
theorem C5_decode_failure_demotion_witness :
    (read_file_with_encoding cdecNone ⟨some [10], some [10]⟩ (some "koi8-r")).needs_base64
      = true ∧
    renderFile cdecNone ⟨some [10], some [10]⟩ ["g.txt"] (some "koi8-r") true =
      .ok (.errorBlock ["g.txt"] "Декодирование koi8-r не удалось") ∧
    blockPayload (.errorBlock ["g.txt"] "Декодирование koi8-r не удалось") = none :=
  C5_decode_failure_demotion cdecNone ⟨some [10], some [10]⟩ ["g.txt"]
    (some "koi8-r") true "Декодирование koi8-r не удалось" (by decide) (by decide)

/-- Inversion of a successful text read: when the result reports no error
and not binary, the full read succeeded, the resolved encoding decoded the
bytes, and the result is exactly the success tuple. -/
theorem rfwe_success_inv (codec : Codec) (f : PFile) (e : Option String)
    (herr : (read_file_with_encoding codec f e).error = none)
    (hbin : (read_file_with_encoding codec f e).is_binary = false) :
    ∃ bs text, f.fullRead = some bs ∧
      codec.decode (resolve_encoding codec bs e) bs = some text ∧
      read_file_with_encoding codec f e =
        ⟨some (normalizeNewlines text), some (resolve_encoding codec bs e),
          !(decide (normalize_encoding_name (some (resolve_encoding codec bs e))
            ∈ utf8Family)), false, none⟩ := by
  by_cases hb : is_binary_ofile f = true
  · simp [read_file_with_encoding, hb] at hbin
  · have hb2 : is_binary_ofile f = false := by
      revert hb; cases is_binary_ofile f <;> simp
    cases hf : f.fullRead with
    | none => simp [read_file_with_encoding, hb2, hf] at herr
    | some bs =>
      cases hd : codec.decode (resolve_encoding codec bs e) bs with
      | none => simp [read_file_with_encoding, hb2, hf, hd] at herr
      | some text =>
        exact ⟨bs, text, rfl, hd, by simp [read_file_with_encoding, hb2, hf, hd]⟩

/-- C6: for a successfully decoded text file, `needs_base64` holds exactly
when the canonical name of the resolved encoding is outside the UTF-8
family, and when `needs_base64` is false the rendered record never carries a
backup block, whatever the no-backup flag. -/
theorem C6_needs_backup_iff (codec : Codec) (f : PFile) (e : Option String)
    (herr : (read_file_with_encoding codec f e).error = none)
    (hbin : (read_file_with_encoding codec f e).is_binary = false) :
    ((read_file_with_encoding codec f e).needs_base64 = true ↔
      normalize_encoding_name (read_file_with_encoding codec f e).encoding
        ∉ utf8Family) ∧
    ((read_file_with_encoding codec f e).needs_base64 = false →
      ∀ rel disable, ∃ body, renderFile codec f rel e disable =
        .ok (.textBlock rel
          (normalize_encoding_name (read_file_with_encoding codec f e).encoding)
          body none)) := by
  obtain ⟨bs, text, hf, hd, hres⟩ := rfwe_success_inv codec f e herr hbin
  constructor
  · rw [hres]
    simp
  · intro hnb rel disable
    refine ⟨emitBody ((read_file_with_encoding codec f e).text.getD []), ?_⟩
    simp [renderFile, herr, hbin, hnb]

/-- Witness for C6 at a UTF-8 file: `needs_base64` is false and the rendered
record carries no backup block. -/
theorem C6_needs_backup_iff_witness :
    ((read_file_with_encoding ⟨fun _ => some "utf-8", fun _ _ => some "ok".data⟩
        ⟨some [1], some [104, 105]⟩ none).needs_base64 = true ↔
      normalize_encoding_name
        (read_file_with_encoding ⟨fun _ => some "utf-8", fun _ _ => some "ok".data⟩
          ⟨some [1], some [104, 105]⟩ none).encoding ∉ utf8Family) ∧
    ((read_file_with_encoding ⟨fun _ => some "utf-8", fun _ _ => some "ok".data⟩
        ⟨some [1], some [104, 105]⟩ none).needs_base64 = false →
      ∀ rel disable, ∃ body,
        renderFile ⟨fun _ => some "utf-8", fun _ _ => some "ok".data⟩
          ⟨some [1], some [104, 105]⟩ rel none disable =
        .ok (.textBlock rel
          (normalize_encoding_name
            (read_file_with_encoding ⟨fun _ => some "utf-8", fun _ _ => some "ok".data⟩
              ⟨some [1], some [104, 105]⟩ none).encoding) body none)) :=
  C6_needs_backup_iff ⟨fun _ => some "utf-8", fun _ _ => some "ok".data⟩
    ⟨some [1], some [104, 105]⟩ none (by decide) (by decide)

/-- The base64 digit of every 6-bit value decodes back to that value. -/
theorem b64chr_val_inverse : ∀ n, n < 64 → b64val (b64chr n) = n := by
  decide

/-- No base64 digit is the padding character. -/
theorem b64chr_ne_pad (n : Nat) : b64chr n ≠ '=' := by
  by_cases h : n < 64
  · have hall : ∀ m, m < 64 → b64chr m ≠ '=' := by decide
    exact hall n h
  · have hlen : b64alphabet.length = 64 := by decide
    unfold b64chr
    rw [List.getD_eq_default _ _ (by rw [hlen]; omega)]
    decide

/-- Base64 round trip: decoding the encoding of any byte list returns it
unchanged. -/
theorem b64_roundtrip : ∀ (bs : List Nat), (∀ b ∈ bs, b < 256) →
    b64decode (b64encode bs) = bs
  | [], _ => rfl
  | [a], h => by
    have ha : a < 256 := h a (by simp)
    have h1 := b64chr_val_inverse (a / 4) (by omega)
    have h2 := b64chr_val_inverse (a % 4 * 16) (by omega)
    simp only [b64encode, b64decode, if_true]
    rw [h1, h2, show a / 4 * 4 + a % 4 * 16 / 16 = a from by omega]
  | [a, b], h => by
    have ha : a < 256 := h a (by simp)
    have hb : b < 256 := h b (by simp)
    have h1 := b64chr_val_inverse (a / 4) (by omega)
    have h2 := b64chr_val_inverse (a % 4 * 16 + b / 16) (by omega)
    have h3 := b64chr_val_inverse (b % 16 * 4) (by omega)
    simp only [b64encode, b64decode, if_true]
    rw [if_neg (b64chr_ne_pad (b % 16 * 4)), h1, h2, h3,
      show a / 4 * 4 + (a % 4 * 16 + b / 16) / 16 = a from by omega,
      show (a % 4 * 16 + b / 16) % 16 * 16 + b % 16 * 4 / 4 = b from by omega]
  | a :: b :: c :: rest, h => by
    have ha : a < 256 := h a (by simp)
    have hb : b < 256 := h b (by simp)
    have hc : c < 256 := h c (by simp)
    have htail : ∀ x ∈ rest, x < 256 := fun x hx => h x (by simp [hx])
    have h1 := b64chr_val_inverse (a / 4) (by omega)
    have h2 := b64chr_val_inverse (a % 4 * 16 + b / 16) (by omega)
    have h3 := b64chr_val_inverse (b % 16 * 4 + c / 64) (by omega)
    have h4 := b64chr_val_inverse (c % 64) (by omega)
    have hrec := b64_roundtrip rest htail
    simp only [b64encode, b64decode]
    rw [if_neg (b64chr_ne_pad (c % 64)), h1, h2, h3, h4, hrec,
      show a / 4 * 4 + (a % 4 * 16 + b / 16) / 16 = a from by omega,
      show (a % 4 * 16 + b / 16) % 16 * 16 + (b % 16 * 4 + c / 64) / 4 = b from by
        omega,
      show (b % 16 * 4 + c / 64) % 4 * 64 + c % 64 = c from by omega]

/-- C8: for a selected text file with a non-UTF-8 resolved encoding and no
no-backup suppression, the rendered record carries the base64 backup of the
re-read original bytes, and base64-decoding that payload yields the original
file content byte for byte. -/
theorem C8_backup_roundtrip (codec : Codec) (f : PFile) (rel : RelPath)
    (e : Option String) (bs : List Nat)
    (hf : f.fullRead = some bs) (hbytes : ∀ b ∈ bs, b < 256)
    (herr : (read_file_with_encoding codec f e).error = none)
    (hbin : (read_file_with_encoding codec f e).is_binary = false)
    (hnb : (read_file_with_encoding codec f e).needs_base64 = true) :
    (∃ body, renderFile codec f rel e false =
      .ok (.textBlock rel
        (normalize_encoding_name (read_file_with_encoding codec f e).encoding)
        body (some (b64encode bs)))) ∧
    b64decode (b64encode bs) = bs := by
  refine ⟨⟨emitBody ((read_file_with_encoding codec f e).text.getD []), ?_⟩,
    b64_roundtrip bs hbytes⟩
  simp [renderFile, herr, hbin, hnb, hf]

/-- The codec of the C8 witness: detection says `cp866`, decoding succeeds. -/
def codec866 : Codec :=
  ⟨fun _ => some "cp866", fun _ _ => some "hi".data⟩

/-- Witness for C8: a two-byte `cp866` file; its backup payload decodes to
the original bytes. -/
theorem C8_backup_roundtrip_witness :
    (∃ body, renderFile codec866 ⟨some [1, 2], some [200, 255]⟩ ["b.txt"] none false =
      .ok (.textBlock ["b.txt"]
        (normalize_encoding_name
          (read_file_with_encoding codec866 ⟨some [1, 2], some [200, 255]⟩ none).encoding)
        body (some (b64encode [200, 255])))) ∧
    b64decode (b64encode [200, 255]) = [200, 255] :=
  C8_backup_roundtrip codec866 ⟨some [1, 2], some [200, 255]⟩ ["b.txt"] none
    [200, 255] rfl (by decide) (by decide) (by decide) (by decide)

/-- Counterexample for C9 as stated: text ending in two newlines is emitted
unchanged (still two trailing newlines), and empty text is emitted as an
empty body with no newline at all. -/
theorem C9_counterexample :
    emitBody ('a' :: '\n' :: '\n' :: []) = 'a' :: '\n' :: '\n' :: [] ∧
    endsInOneNL (emitBody ('a' :: '\n' :: '\n' :: [])) = false ∧
    emitBody [] = [] ∧
    endsInOneNL (emitBody []) = false := by
  decide

/-- C9 (amended): the emitted body ends in exactly one newline when the
normalized text is non-empty and does not already end in one (a single `\n`
is appended); text already ending in a newline is emitted unchanged, so
extra trailing newlines are preserved. -/
theorem C9_trailing_newline (t : List Char) (hne : t ≠ []) :
    (t.getLast? ≠ some '\n' →
      emitBody t = t ++ ['\n'] ∧ endsInOneNL (emitBody t) = true) ∧
    (t.getLast? = some '\n' → emitBody t = t) := by
  constructor
  · intro h
    have he : emitBody t = t ++ ['\n'] := by
      simp [emitBody, hne, h]
    refine ⟨he, ?_⟩
    rw [he]
    simp [endsInOneNL, List.getLast?_concat, List.dropLast_concat, h]
  · intro h
    simp [emitBody, h]

/-- Witness for C9: one character with no newline gets exactly one. -/
theorem C9_trailing_newline_witness :
    emitBody ['a'] = ['a'] ++ ['\n'] ∧ endsInOneNL (emitBody ['a']) = true :=
  (C9_trailing_newline ['a'] (by decide)).1 (by decide)

end Bundle
